import Mathlib

/-!
Verification of the Washington UTC docket downloader
(`src/PUC_API_Calls/WA_UTC/`).  The downloader module
`utc_downloader_nb.py` itself is not part of the repository snapshot;
only its README and a demo notebook are.  The three functions
`list_document_links`, `download_documents` and `fetch_docket` are
therefore modelled from the specification (sections 3, 4.1, 4.2, 4.3,
6 of the design document), with strings embedded as `List Char`,
HTML pages as lists of anchors, the network as explicit functions,
and the destination directory as an association list of files.
-/

/-- Strings are embedded as lists of characters. -/
abbrev Str := List Char

/-- A parsed HTML anchor: hyperlink target and visible text. -/
structure Anchor where
  href : Str
  text : Str
deriving DecidableEq

/-- A fetched listing page, reduced to its anchors (the only part the
scraper reads). -/
abbrev Page := List Anchor

/-- `LinkIndex`: mapping `doc_id ↦ (source_url, filename)` kept in
insertion (discovery) order, as the Python `dict` preserves it. -/
abbrev LinkIndex := List (Str × Str × Str)

/-- Association-list lookup for a `LinkIndex`. -/
def lookupIdx : LinkIndex → Str → Option (Str × Str)
  | [], _ => none
  | (k, v) :: rest, k₀ => if k₀ = k then some v else lookupIdx rest k₀

/-- Whether a `doc_id` is already present in the index. -/
def hasKey (idx : LinkIndex) (k : Str) : Bool :=
  (lookupIdx idx k).isSome

/-- The keys of a `LinkIndex` in order. -/
def keysOf (idx : LinkIndex) : List Str :=
  idx.map (·.1)

/-- Boolean test that the first list is an initial segment of the
second. -/
def isPrefixOfL : Str → Str → Bool
  | [], _ => true
  | _ :: _, [] => false
  | a :: as, b :: bs => decide (a = b) && isPrefixOfL as bs

/-- Scan for the first occurrence of `pat` and return the remainder of
the string after it (`None` when `pat` does not occur). -/
def findAfter (pat : Str) : Str → Option Str
  | [] => if isPrefixOfL pat [] then some [] else none
  | c :: rest =>
      if isPrefixOfL pat (c :: rest) then some (List.drop pat.length (c :: rest))
      else findAfter pat rest

/-- Boolean substring test. -/
def containsSub (pat s : Str) : Bool :=
  (findAfter pat s).isSome

/-- The literal marker identifying document links on a listing page. -/
def getDocumentMarker : Str := "GetDocument".data

/-- The query-parameter marker preceding the numeric identifier. -/
def docIdKey : Str := "docID=".data

/-- Modelled from the spec: `utc_downloader_nb.py` is absent from the
snapshot; spec 4.1 step 4 — extract the numeric identifier following
the query parameter `docID=` (spec 6 fixes the parameter name as
case-sensitive `docID`); links without a parseable identifier yield
`none` and are skipped. -/
def extractDocId (href : Str) : Option Str :=
  match findAfter docIdKey href with
  | none => none
  | some rest =>
      let d := rest.takeWhile Char.isDigit
      if d.isEmpty then none else some d

/-- Decimal digits of a year. -/
def natToStr (n : Nat) : Str := Nat.toDigits 10 n

/-- Modelled from the spec: `utc_downloader_nb.py` is absent from the
snapshot; spec 4.1 step 1 and spec 6 — the per-year listing URL
`https://<host>/server/docs/{year}/{docket}/docsets`, with the host
left abstract as a parameter. -/
def listingUrl (host : Str) (year : Nat) (docket : Str) : Str :=
  host ++ "/server/docs/".data ++ natToStr year ++ "/".data ++ docket ++ "/docsets".data

/-- Character-wise lower-casing. -/
def toLowerL (s : Str) : Str := s.map Char.toLower

/-- Boolean test that `p` is a final segment of `s`. -/
def isSuffixOfL (p s : Str) : Bool :=
  isPrefixOfL p.reverse s.reverse

/-- Case-insensitive test that `s` ends with `p`. -/
def endsWithCI (s p : Str) : Bool :=
  isSuffixOfL (toLowerL p) (toLowerL s)

/-- The `.pdf` extension. -/
def pdfExt : Str := ".pdf".data

/-- Whitespace-trimming of both ends (Python `str.strip()`). -/
def trimL (s : Str) : Str :=
  ((s.dropWhile Char.isWhitespace).reverse.dropWhile Char.isWhitespace).reverse

/-- Modelled from the spec: `utc_downloader_nb.py` is absent from the
snapshot; spec 4.1 step 6 — derive the filename from the link's
visible text, trimmed; if empty use `{doc_id}.pdf`; otherwise append
`.pdf` unless already present under a case-insensitive check. -/
def deriveFilename (text id : Str) : Str :=
  let t := trimL text
  if t.isEmpty then id ++ pdfExt
  else if endsWithCI t pdfExt then t
  else t ++ pdfExt

/-- Whether a link target is already an absolute URL. -/
def isAbsoluteUrl (s : Str) : Bool :=
  isPrefixOfL "http://".data s || isPrefixOfL "https://".data s

/-- The listing URL truncated after its last `/` (the base for
resolving relative link targets). -/
def baseDirOf (s : Str) : Str :=
  (s.reverse.dropWhile (fun c => decide (c ≠ '/'))).reverse

/-- Modelled from the spec: `utc_downloader_nb.py` is absent from the
snapshot; spec 4.1 step 7 — resolve the link target to an absolute
URL relative to the listing page URL (handles both relative and
absolute hrefs). -/
def resolveUrl (base href : Str) : Str :=
  if isAbsoluteUrl href then href else baseDirOf base ++ href

/-- Modelled from the spec: `utc_downloader_nb.py` is absent from the
snapshot; spec 4.1 steps 3–7 — process one anchor: require the
`GetDocument` marker, extract the identifier, skip identifiers
already indexed (first occurrence wins), record the resolved URL and
derived filename. -/
def processAnchor (base : Str) (idx : LinkIndex) (a : Anchor) : LinkIndex :=
  if containsSub getDocumentMarker a.href then
    match extractDocId a.href with
    | none => idx
    | some id =>
        if hasKey idx id then idx
        else idx ++ [(id, resolveUrl base a.href, deriveFilename a.text id)]
  else idx

/-- Modelled from the spec: `utc_downloader_nb.py` is absent from the
snapshot; spec 4.1 step 2 — fetch one year's listing page; a network
error or 4xx/5xx status (`none`) is non-fatal and contributes zero
documents; a fetched page has each anchor processed in document
order. -/
def processYear (host docket : Str) (fetch : Str → Option Page)
    (idx : LinkIndex) (year : Nat) : LinkIndex :=
  match fetch (listingUrl host year docket) with
  | none => idx
  | some page => page.foldl (processAnchor (listingUrl host year docket)) idx

/-- The inclusive ascending year range `[s, e]`. -/
def yearsRange (s e : Nat) : List Nat :=
  List.range' s (e + 1 - s)

/-- Modelled from the spec: `utc_downloader_nb.py` is absent from the
snapshot; spec 4.1 — `list_document_links` (discover): for each year
of the inclusive range in ascending order, fetch and parse the
listing page and accumulate the `LinkIndex`.  The wall-clock default
for the end year is made an explicit parameter; the network is the
explicit function `fetch`. -/
def list_document_links (host docket : Str) (startYear endYear : Nat)
    (fetch : Str → Option Page) : LinkIndex :=
  (yearsRange startYear endYear).foldl (processYear host docket fetch) []

/-- Per-document retrieval result (spec 3, `RetrievalOutcome`). -/
inductive RetrievalOutcome where
  | Saved : RetrievalOutcome
  | SkippedExisting : RetrievalOutcome
  | Failed : Str → RetrievalOutcome
deriving DecidableEq

/-- Whether an outcome is a failure. -/
def isFailed : RetrievalOutcome → Bool
  | RetrievalOutcome.Failed _ => true
  | _ => false

/-- The destination directory's contents: filename ↦ file bytes. -/
abbrev FS := List (Str × Str)

/-- Whether a file of the given name exists in the destination. -/
def fileExists (fs : FS) (name : Str) : Bool :=
  fs.any (fun e => decide (e.1 = name))

/-- Contents of the named file, when present. -/
def lookupFS : FS → Str → Option Str
  | [], _ => none
  | (n, b) :: rest, n₀ => if n₀ = n then some b else lookupFS rest n₀

/-- Modelled from the spec: `utc_downloader_nb.py` is absent from the
snapshot; spec 4.2 — `download_documents` (retrieve): per index entry
in insertion order, skip when the file already exists (no request, no
overwrite); otherwise issue one GET (`fetchDoc`); a request exception
or non-2xx status (`Except.error`) classifies the entry `Failed` and
the loop continues; on success the body is written and the loop
sleeps `pace` before the next entry.  Returns (outcomes, final
directory contents, number of network requests, total sleep). -/
def download_documents (index : LinkIndex) (fs : FS)
    (fetchDoc : Str → Except Str Str) (pace : Nat) :
    List RetrievalOutcome × FS × Nat × Nat :=
  match index with
  | [] => ([], fs, 0, 0)
  | (_, url, fname) :: rest =>
      if fileExists fs fname then
        let r := download_documents rest fs fetchDoc pace
        (RetrievalOutcome.SkippedExisting :: r.1, r.2.1, r.2.2.1, r.2.2.2)
      else
        match fetchDoc url with
        | Except.error reason =>
            let r := download_documents rest fs fetchDoc pace
            (RetrievalOutcome.Failed reason :: r.1, r.2.1, r.2.2.1 + 1, r.2.2.2)
        | Except.ok body =>
            let r := download_documents rest ((fname, body) :: fs) fetchDoc pace
            (RetrievalOutcome.Saved :: r.1, r.2.1, r.2.2.1 + 1, r.2.2.2 + pace)

/-- Modelled from the spec: `utc_downloader_nb.py` is absent from the
snapshot; spec 4.3 — the default destination directory
`./utc_<docket>`. -/
def defaultDest (docket : Str) : Str :=
  "./utc_".data ++ docket

/-- Modelled from the spec: `utc_downloader_nb.py` is absent from the
snapshot; spec 4.3 — `fetch_docket` (orchestrator): discover, then
retrieve the discovered index into the destination (defaulting to
`./utc_<docket>`), and return the index.  `gfs` gives each
destination directory's current contents. -/
def fetch_docket (host docket : Str) (startYear endYear : Nat)
    (dest : Option Str) (pace : Nat) (fetchPage : Str → Option Page)
    (fetchDoc : Str → Except Str Str) (gfs : Str → FS) :
    LinkIndex × Str × (List RetrievalOutcome × FS × Nat × Nat) :=
  let index := list_document_links host docket startYear endYear fetchPage
  let dir := dest.getD (defaultDest docket)
  (index, dir, download_documents index (gfs dir) fetchDoc pace)

/-! ### Concrete fixtures used to instantiate the theorems -/

/-- A concrete origin host. -/
def hostW : Str := "https://www.utc.wa.gov".data

/-- A concrete docket identifier. -/
def dockW : Str := "7".data

/-- An absolute proxy link carrying `docID=42` (year 1's copy). -/
def hrefA : Str := "https://apiproxy.utc.wa.gov/cases/GetDocument?docID=42&x=1".data

/-- An absolute proxy link carrying `docID=42` (year 2's copy). -/
def hrefB : Str := "https://apiproxy.utc.wa.gov/cases/GetDocument?docID=42".data

/-- A stub site where years 1 and 2 both list document `42`. -/
def fetchW1 : Str → Option Page := fun u =>
  if u = listingUrl hostW 1 dockW then some [⟨hrefA, "A".data⟩]
  else if u = listingUrl hostW 2 dockW then some [⟨hrefB, "B".data⟩]
  else none

/-- A stub site where year 1's listing page is unreachable and year 2
lists one document. -/
def fetchW4 : Str → Option Page := fun u =>
  if u = listingUrl hostW 2 dockW then some [⟨hrefB, "B".data⟩] else none

/-- A stub site serving one document in year 1 and empty pages
elsewhere. -/
def fetchW7 : Str → Option Page := fun u =>
  if u = listingUrl hostW 1 dockW then some [⟨hrefB, "B".data⟩] else some []

/-- A stub site agreeing with `fetchW7` on year 1's listing URL and
failing elsewhere. -/
def fetchW7x : Str → Option Page := fun u =>
  if u = listingUrl hostW 1 dockW then some [⟨hrefB, "B".data⟩] else none

/-- A link hosted away from the `apiproxy` endpoint but carrying the
`GetDocument` marker and a `docID`. -/
def hrefEvil : Str := "https://evil.example/cases/GetDocument?docID=7".data

/-- A stub site whose year-1 page links a document through a foreign
host. -/
def fetchC9 : Str → Option Page := fun u =>
  if u = listingUrl hostW 1 "9".data then some [⟨hrefEvil, "x".data⟩] else none

/-- A one-entry index. -/
def idxC3 : LinkIndex := [("1".data, "u".data, "f.pdf".data)]

/-- A document endpoint that always answers with a server error. -/
def fAllFail : Str → Except Str Str := fun _ => Except.error "500".data

/-- A document endpoint that always succeeds. -/
def fOkW : Str → Except Str Str := fun _ => Except.ok "B".data

/-- A two-entry index whose first document will fail to fetch. -/
def idxW5 : LinkIndex :=
  [("1".data, "u1".data, "a.pdf".data), ("2".data, "u2".data, "b.pdf".data)]

/-- A document endpoint failing on `u1` and succeeding elsewhere. -/
def fMix : Str → Except Str Str := fun u =>
  if u = "u1".data then Except.error "404".data else Except.ok "B".data

/-- A link text carrying a non-PDF extension (from the demo notebook's
log). -/
def xlsxText : Str := "2045 1000 MW Summary Results.xlsx".data

/-- A link text carrying percent-encoded characters (from the demo
notebook's log). -/
def pctText : Str := "Appendix J %28R%29-06-01-2023".data

/-! ### String-scanning lemmas -/

theorem isPrefixOfL_self_append (p t : Str) : isPrefixOfL p (p ++ t) = true := by
  induction p with
  | nil => rfl
  | cons a as ih => simp [isPrefixOfL, ih]

theorem isPrefixOfL_exists {p s : Str} (h : isPrefixOfL p s = true) :
    ∃ t, s = p ++ t := by
  induction p generalizing s with
  | nil => exact ⟨s, rfl⟩
  | cons a as ih =>
      cases s with
      | nil => simp [isPrefixOfL] at h
      | cons b bs =>
          simp only [isPrefixOfL, Bool.and_eq_true, decide_eq_true_eq] at h
          obtain ⟨t, ht⟩ := ih h.2
          exact ⟨t, by rw [h.1, ht]; rfl⟩

theorem findAfter_spec {pat : Str} : ∀ {s r : Str}, findAfter pat s = some r →
    ∃ a, s = a ++ pat ++ r := by
  intro s
  induction s with
  | nil =>
      intro r h
      unfold findAfter at h
      by_cases hp : isPrefixOfL pat [] = true
      · obtain ⟨t, ht⟩ := isPrefixOfL_exists hp
        obtain ⟨h1, h2⟩ := List.append_eq_nil.mp ht.symm
        simp only [hp, if_true] at h
        exact ⟨[], by simp [h1, ← Option.some_inj.mp h]⟩
      · simp only [hp] at h
        simp at h
  | cons c rest ih =>
      intro r h
      unfold findAfter at h
      by_cases hp : isPrefixOfL pat (c :: rest) = true
      · simp only [hp, if_true, Option.some_inj] at h
        obtain ⟨t, ht⟩ := isPrefixOfL_exists hp
        refine ⟨[], ?_⟩
        rw [List.nil_append, ht, ← h, ht, List.drop_left]
      · simp only [hp, if_false] at h
        obtain ⟨a, ha⟩ := ih h
        exact ⟨c :: a, by rw [ha]; rfl⟩

theorem extractDocId_spec {href d : Str} (h : extractDocId href = some d) :
    d ≠ [] ∧ d.all Char.isDigit = true ∧ docIdKey ++ d <:+: href := by
  unfold extractDocId at h
  cases hf : findAfter docIdKey href with
  | none => rw [hf] at h; simp at h
  | some rest =>
      rw [hf] at h
      simp only at h
      by_cases he : (rest.takeWhile Char.isDigit).isEmpty = true
      · simp [he] at h
      · rw [if_neg he] at h
        have hd : d = rest.takeWhile Char.isDigit := (Option.some_inj.mp h).symm
        refine ⟨?_, ?_, ?_⟩
        · rw [hd]
          intro hnil
          rw [hnil] at he
          exact he rfl
        · rw [hd, List.all_eq_true]
          intro x hx
          exact List.mem_takeWhile_imp hx
        · obtain ⟨a, ha⟩ := findAfter_spec hf
          refine ⟨a, rest.dropWhile Char.isDigit, ?_⟩
          rw [List.append_assoc, List.append_assoc, hd,
            List.takeWhile_append_dropWhile, ← List.append_assoc, ← ha]

/-! ### Index lemmas -/

theorem lookupIdx_append_left {idx : LinkIndex} {k : Str} {v : Str × Str}
    (h : lookupIdx idx k = some v) (l : LinkIndex) :
    lookupIdx (idx ++ l) k = some v := by
  induction idx with
  | nil => simp [lookupIdx] at h
  | cons e rest ih =>
      obtain ⟨k₁, v₁⟩ := e
      simp only [lookupIdx] at h ⊢
      by_cases hk : k = k₁
      · simpa [hk] using h
      · rw [if_neg hk] at h ⊢
        exact ih h

theorem not_mem_keys_of_lookup_none {idx : LinkIndex} {k : Str}
    (h : lookupIdx idx k = none) : k ∉ keysOf idx := by
  induction idx with
  | nil => simp [keysOf]
  | cons e rest ih =>
      obtain ⟨k₁, v₁⟩ := e
      simp only [lookupIdx] at h
      by_cases hk : k = k₁
      · simp [hk] at h
      · rw [if_neg hk] at h
        simp only [keysOf, List.map_cons, List.mem_cons]
        rintro (h1 | h1)
        · exact hk h1
        · exact ih h h1

theorem hasKey_false_lookup_none {idx : LinkIndex} {k : Str}
    (h : hasKey idx k = false) : lookupIdx idx k = none := by
  unfold hasKey at h
  exact Option.not_isSome_iff_eq_none.mp (by simp [h])

/-! ### Case analysis of one anchor step -/

theorem processAnchor_cases (base : Str) (idx : LinkIndex) (a : Anchor) :
    processAnchor base idx a = idx ∨
    ∃ id, containsSub getDocumentMarker a.href = true ∧
      extractDocId a.href = some id ∧ hasKey idx id = false ∧
      processAnchor base idx a
        = idx ++ [(id, resolveUrl base a.href, deriveFilename a.text id)] := by
  unfold processAnchor
  by_cases hc : containsSub getDocumentMarker a.href = true
  · rw [if_pos hc]
    cases he : extractDocId a.href with
    | none => left; rfl
    | some id =>
        by_cases hk : hasKey idx id = true
        · left; simp [hk]
        · right
          exact ⟨id, hc, rfl, by simpa using hk, by simp [hk]⟩
  · rw [if_neg hc]; left; rfl

/-! ### First-seen-wins preservation -/

theorem lookup_preserved_anchor {idx : LinkIndex} {k : Str} {v : Str × Str}
    (h : lookupIdx idx k = some v) (base : Str) (a : Anchor) :
    lookupIdx (processAnchor base idx a) k = some v := by
  rcases processAnchor_cases base idx a with heq | ⟨id, _, _, _, heq⟩
  · rw [heq]; exact h
  · rw [heq]; exact lookupIdx_append_left h _

theorem lookup_preserved_anchors {k : Str} {v : Str × Str} (base : Str) :
    ∀ (page : Page) (idx : LinkIndex), lookupIdx idx k = some v →
      lookupIdx (page.foldl (processAnchor base) idx) k = some v := by
  intro page
  induction page with
  | nil => intro idx h; exact h
  | cons a rest ih =>
      intro idx h
      exact ih _ (lookup_preserved_anchor h base a)

theorem lookup_preserved_year {k : Str} {v : Str × Str} (host docket : Str)
    (fetch : Str → Option Page) (idx : LinkIndex) (y : Nat)
    (h : lookupIdx idx k = some v) :
    lookupIdx (processYear host docket fetch idx y) k = some v := by
  unfold processYear
  cases fetch (listingUrl host y docket) with
  | none => exact h
  | some page => exact lookup_preserved_anchors _ page idx h

theorem lookup_preserved_years {k : Str} {v : Str × Str} (host docket : Str)
    (fetch : Str → Option Page) :
    ∀ (ys : List Nat) (idx : LinkIndex), lookupIdx idx k = some v →
      lookupIdx (ys.foldl (processYear host docket fetch) idx) k = some v := by
  intro ys
  induction ys with
  | nil => intro idx h; exact h
  | cons y rest ih =>
      intro idx h
      exact ih _ (lookup_preserved_year host docket fetch idx y h)

/-! ### Key uniqueness -/

theorem keysOf_append (idx l : LinkIndex) :
    keysOf (idx ++ l) = keysOf idx ++ keysOf l := by
  simp [keysOf]

theorem nodup_processAnchor {idx : LinkIndex} (h : (keysOf idx).Nodup)
    (base : Str) (a : Anchor) : (keysOf (processAnchor base idx a)).Nodup := by
  rcases processAnchor_cases base idx a with heq | ⟨id, _, _, hk, heq⟩
  · rw [heq]; exact h
  · rw [heq, keysOf_append]
    rw [List.nodup_append]
    refine ⟨h, List.nodup_singleton _, ?_⟩
    intro x hx hx1
    simp only [keysOf, List.map_cons, List.map_nil, List.mem_singleton] at hx1
    rw [hx1] at hx
    exact not_mem_keys_of_lookup_none (hasKey_false_lookup_none hk) hx

theorem nodup_anchors (base : Str) :
    ∀ (page : Page) (idx : LinkIndex), (keysOf idx).Nodup →
      (keysOf (page.foldl (processAnchor base) idx)).Nodup := by
  intro page
  induction page with
  | nil => intro idx h; exact h
  | cons a rest ih => intro idx h; exact ih _ (nodup_processAnchor h base a)

theorem nodup_year (host docket : Str) (fetch : Str → Option Page)
    (idx : LinkIndex) (y : Nat) (h : (keysOf idx).Nodup) :
    (keysOf (processYear host docket fetch idx y)).Nodup := by
  unfold processYear
  cases fetch (listingUrl host y docket) with
  | none => exact h
  | some page => exact nodup_anchors _ page idx h

theorem nodup_years (host docket : Str) (fetch : Str → Option Page) :
    ∀ (ys : List Nat) (idx : LinkIndex), (keysOf idx).Nodup →
      (keysOf (ys.foldl (processYear host docket fetch) idx)).Nodup := by
  intro ys
  induction ys with
  | nil => intro idx h; exact h
  | cons y rest ih => intro idx h; exact ih _ (nodup_year host docket fetch idx y h)

/-! ### Index size never shrinks -/

theorem length_le_processAnchor (base : Str) (idx : LinkIndex) (a : Anchor) :
    idx.length ≤ (processAnchor base idx a).length := by
  rcases processAnchor_cases base idx a with heq | ⟨id, _, _, _, heq⟩
  · rw [heq]
  · rw [heq]; simp

theorem length_le_anchors (base : Str) :
    ∀ (page : Page) (idx : LinkIndex),
      idx.length ≤ (page.foldl (processAnchor base) idx).length := by
  intro page
  induction page with
  | nil => intro idx; exact le_rfl
  | cons a rest ih =>
      intro idx
      exact le_trans (length_le_processAnchor base idx a) (ih _)

theorem length_le_year (host docket : Str) (fetch : Str → Option Page)
    (idx : LinkIndex) (y : Nat) :
    idx.length ≤ (processYear host docket fetch idx y).length := by
  unfold processYear
  cases fetch (listingUrl host y docket) with
  | none => exact le_rfl
  | some page => exact length_le_anchors _ page idx

theorem length_le_years (host docket : Str) (fetch : Str → Option Page) :
    ∀ (ys : List Nat) (idx : LinkIndex),
      idx.length ≤ (ys.foldl (processYear host docket fetch) idx).length := by
  intro ys
  induction ys with
  | nil => intro idx; exact le_rfl
  | cons y rest ih =>
      intro idx
      exact le_trans (length_le_year host docket fetch idx y) (ih _)

/-! ### Provenance of index entries -/

theorem mem_processAnchor {ent : Str × Str × Str} {idx : LinkIndex}
    {base : Str} {a : Anchor} (h : ent ∈ processAnchor base idx a) :
    ent ∈ idx ∨
    (containsSub getDocumentMarker a.href = true ∧
      ∃ id, extractDocId a.href = some id ∧
        ent = (id, resolveUrl base a.href, deriveFilename a.text id)) := by
  rcases processAnchor_cases base idx a with heq | ⟨id, hc, he, _, heq⟩
  · rw [heq] at h; exact Or.inl h
  · rw [heq] at h
    rcases List.mem_append.mp h with h1 | h1
    · exact Or.inl h1
    · right
      exact ⟨hc, id, he, List.mem_singleton.mp h1⟩

theorem mem_anchors {ent : Str × Str × Str} {base : Str} :
    ∀ {page : Page} {idx : LinkIndex},
      ent ∈ page.foldl (processAnchor base) idx →
      ent ∈ idx ∨
      ∃ a ∈ page, containsSub getDocumentMarker a.href = true ∧
        ∃ id, extractDocId a.href = some id ∧
          ent = (id, resolveUrl base a.href, deriveFilename a.text id) := by
  intro page
  induction page with
  | nil => intro idx h; exact Or.inl h
  | cons a rest ih =>
      intro idx h
      rcases ih h with h1 | ⟨a₁, ha₁, hrest⟩
      · rcases mem_processAnchor h1 with h2 | ⟨hc, id, he, hent⟩
        · exact Or.inl h2
        · exact Or.inr ⟨a, List.mem_cons_self a rest, hc, id, he, hent⟩
      · exact Or.inr ⟨a₁, List.mem_cons_of_mem a ha₁, hrest⟩

theorem mem_year {ent : Str × Str × Str} {host docket : Str}
    {fetch : Str → Option Page} {idx : LinkIndex} {y : Nat}
    (h : ent ∈ processYear host docket fetch idx y) :
    ent ∈ idx ∨
    ∃ page, fetch (listingUrl host y docket) = some page ∧
      ∃ a ∈ page, containsSub getDocumentMarker a.href = true ∧
        ∃ id, extractDocId a.href = some id ∧
          ent = (id, resolveUrl (listingUrl host y docket) a.href,
                 deriveFilename a.text id) := by
  unfold processYear at h
  cases hf : fetch (listingUrl host y docket) with
  | none => rw [hf] at h; exact Or.inl h
  | some page =>
      rw [hf] at h
      rcases mem_anchors h with h1 | h1
      · exact Or.inl h1
      · exact Or.inr ⟨page, rfl, h1⟩

theorem mem_years {ent : Str × Str × Str} {host docket : Str}
    {fetch : Str → Option Page} :
    ∀ {ys : List Nat} {idx : LinkIndex},
      ent ∈ ys.foldl (processYear host docket fetch) idx →
      ent ∈ idx ∨
      ∃ y ∈ ys, ∃ page, fetch (listingUrl host y docket) = some page ∧
        ∃ a ∈ page, containsSub getDocumentMarker a.href = true ∧
          ∃ id, extractDocId a.href = some id ∧
            ent = (id, resolveUrl (listingUrl host y docket) a.href,
                   deriveFilename a.text id) := by
  intro ys
  induction ys with
  | nil => intro idx h; exact Or.inl h
  | cons y rest ih =>
      intro idx h
      rcases ih h with h1 | ⟨y₁, hy₁, hrest⟩
      · rcases mem_year h1 with h2 | ⟨page, hp, ha⟩
        · exact Or.inl h2
        · exact Or.inr ⟨y, List.mem_cons_self y rest, page, hp, ha⟩
      · exact Or.inr ⟨y₁, List.mem_cons_of_mem y hy₁, hrest⟩

theorem mem_discover {ent : Str × Str × Str} {host docket : Str}
    {s e : Nat} {fetch : Str → Option Page}
    (h : ent ∈ list_document_links host docket s e fetch) :
    ∃ y ∈ yearsRange s e, ∃ page,
      fetch (listingUrl host y docket) = some page ∧
      ∃ a ∈ page, containsSub getDocumentMarker a.href = true ∧
        ∃ id, extractDocId a.href = some id ∧
          ent = (id, resolveUrl (listingUrl host y docket) a.href,
                 deriveFilename a.text id) := by
  unfold list_document_links at h
  rcases mem_years h with h1 | h1
  · simp at h1
  · exact h1

/-! ### Filename lemmas -/

theorem toLowerL_append (s t : Str) : toLowerL (s ++ t) = toLowerL s ++ toLowerL t :=
  List.map_append _ s t

theorem isSuffixOfL_self_append (p t : Str) : isSuffixOfL p (t ++ p) = true := by
  unfold isSuffixOfL
  rw [List.reverse_append]
  exact isPrefixOfL_self_append p.reverse t.reverse

theorem endsWithCI_append_pdf (s : Str) : endsWithCI (s ++ pdfExt) pdfExt = true := by
  unfold endsWithCI
  have hlow : toLowerL pdfExt = pdfExt := by decide
  rw [hlow, toLowerL_append, hlow]
  exact isSuffixOfL_self_append pdfExt (toLowerL s)

theorem deriveFilename_ends_pdf (t id : Str) :
    endsWithCI (deriveFilename t id) pdfExt = true := by
  unfold deriveFilename
  by_cases h1 : (trimL t).isEmpty = true
  · rw [if_pos h1]
    exact endsWithCI_append_pdf id
  · rw [if_neg h1]
    by_cases h2 : endsWithCI (trimL t) pdfExt = true
    · rw [if_pos h2]; exact h2
    · rw [if_neg h2]
      exact endsWithCI_append_pdf (trimL t)

/-! ### Fold congruence and range decomposition -/

theorem foldl_congr_mem {α β : Type} {f g : β → α → β} :
    ∀ {l : List α} {b : β}, (∀ b₀ x, x ∈ l → f b₀ x = g b₀ x) →
      l.foldl f b = l.foldl g b := by
  intro l
  induction l with
  | nil => intro b _; rfl
  | cons x rest ih =>
      intro b h
      simp only [List.foldl_cons]
      rw [h b x (List.mem_cons_self x rest)]
      exact ih fun b₀ x₀ hx₀ => h b₀ x₀ (List.mem_cons_of_mem x hx₀)

theorem yearsRange_append {s e₁ e₂ : Nat} (h1 : s ≤ e₁) (h2 : e₁ ≤ e₂) :
    yearsRange s e₂ = yearsRange s e₁ ++ List.range' (e₁ + 1) (e₂ - e₁) := by
  unfold yearsRange
  have h3 : e₂ + 1 - s = (e₂ - e₁) + (e₁ + 1 - s) := by omega
  have h4 : s + (e₁ + 1 - s) = e₁ + 1 := by omega
  rw [h3, ← List.range'_append_1 s (e₁ + 1 - s) (e₂ - e₁), h4]

/-! ### Retrieval lemmas -/

theorem download_length (fetchDoc : Str → Except Str Str) (pace : Nat) :
    ∀ (index : LinkIndex) (fs : FS),
      (download_documents index fs fetchDoc pace).1.length = index.length := by
  intro index
  induction index with
  | nil => intro fs; rfl
  | cons ent rest ih =>
      intro fs
      obtain ⟨k, url, fname⟩ := ent
      simp only [download_documents]
      by_cases hex : fileExists fs fname = true
      · rw [if_pos hex]; simp [ih]
      · rw [if_neg hex]
        cases fetchDoc url with
        | error r => simp [ih]
        | ok body => simp [ih]

theorem fileExists_grow (fetchDoc : Str → Except Str Str) (pace : Nat) {n : Str} :
    ∀ (index : LinkIndex) (fs : FS), fileExists fs n = true →
      fileExists (download_documents index fs fetchDoc pace).2.1 n = true := by
  intro index
  induction index with
  | nil => intro fs h; exact h
  | cons ent rest ih =>
      intro fs h
      obtain ⟨k, url, fname⟩ := ent
      simp only [download_documents]
      by_cases hex : fileExists fs fname = true
      · rw [if_pos hex]; exact ih fs h
      · rw [if_neg hex]
        cases fetchDoc url with
        | error r => exact ih fs h
        | ok body =>
            refine ih ((fname, body) :: fs) ?_
            simp [fileExists] at h ⊢
            exact Or.inr h

theorem download_no_overwrite (fetchDoc : Str → Except Str Str) (pace : Nat) {n : Str} :
    ∀ (index : LinkIndex) (fs : FS), fileExists fs n = true →
      lookupFS (download_documents index fs fetchDoc pace).2.1 n = lookupFS fs n := by
  intro index
  induction index with
  | nil => intro fs h; rfl
  | cons ent rest ih =>
      intro fs h
      obtain ⟨k, url, fname⟩ := ent
      simp only [download_documents]
      by_cases hex : fileExists fs fname = true
      · rw [if_pos hex]; exact ih fs h
      · rw [if_neg hex]
        cases fetchDoc url with
        | error r => exact ih fs h
        | ok body =>
            have hne : n ≠ fname := by
              intro hnf
              rw [hnf] at h
              rw [h] at hex
              exact hex rfl
            have h2 : fileExists ((fname, body) :: fs) n = true := by
              simp [fileExists] at h ⊢
              exact Or.inr h
            have h3 := ih ((fname, body) :: fs) h2
            rw [h3]
            simp only [lookupFS]
            rw [if_neg hne]

theorem entries_exist_after (fetchDoc : Str → Except Str Str) (pace : Nat) :
    ∀ (index : LinkIndex) (fs : FS),
      (∀ o ∈ (download_documents index fs fetchDoc pace).1, isFailed o = false) →
      ∀ ent ∈ index,
        fileExists (download_documents index fs fetchDoc pace).2.1 ent.2.2 = true := by
  intro index
  induction index with
  | nil => intro fs _ ent hent; simp at hent
  | cons e rest ih =>
      intro fs hNo ent hent
      obtain ⟨k, url, fname⟩ := e
      simp only [download_documents] at hNo ⊢
      by_cases hex : fileExists fs fname = true
      · rw [if_pos hex] at hNo ⊢
        rcases List.mem_cons.mp hent with h1 | h1
        · rw [h1]
          exact fileExists_grow fetchDoc pace rest fs hex
        · refine ih fs ?_ ent h1
          intro o ho
          exact hNo o (List.mem_cons_of_mem _ ho)
      · rw [if_neg hex] at hNo ⊢
        cases hf : fetchDoc url with
        | error r =>
            rw [hf] at hNo
            exact absurd (hNo (RetrievalOutcome.Failed r) (List.mem_cons_self _ _)) (by simp [isFailed])
        | ok body =>
            rw [hf] at hNo
            rcases List.mem_cons.mp hent with h1 | h1
            · rw [h1]
              refine fileExists_grow fetchDoc pace rest ((fname, body) :: fs) ?_
              simp [fileExists]
            · refine ih ((fname, body) :: fs) ?_ ent h1
              intro o ho
              exact hNo o (List.mem_cons_of_mem _ ho)

theorem download_all_existing (fetchDoc : Str → Except Str Str) (pace : Nat) :
    ∀ (index : LinkIndex) (fs : FS),
      (∀ ent ∈ index, fileExists fs ent.2.2 = true) →
      download_documents index fs fetchDoc pace
        = (index.map (fun _ => RetrievalOutcome.SkippedExisting), fs, 0, 0) := by
  intro index
  induction index with
  | nil => intro fs _; rfl
  | cons e rest ih =>
      intro fs hAll
      obtain ⟨k, url, fname⟩ := e
      have hex : fileExists fs fname = true := hAll (k, url, fname) (List.mem_cons_self _ _)
      simp only [download_documents]
      rw [if_pos hex]
      rw [ih fs fun ent hent => hAll ent (List.mem_cons_of_mem _ hent)]
      rfl

/-! ### Claim theorems -/

/-- C1: For every docket and year range, the index returned by discover
(`list_document_links`) has pairwise distinct `doc_id` keys, and a
binding established by the prefix of the range up to any intermediate
year `m` is retained unchanged in the full range: the first occurrence
(earliest year processed) wins and later occurrences are ignored. -/
theorem list_document_links_unique_first_wins (host docket : Str)
    (s m e : Nat) (fetch : Str → Option Page) (h1 : s ≤ m) (h2 : m ≤ e) :
    (keysOf (list_document_links host docket s e fetch)).Nodup ∧
    ∀ k v, lookupIdx (list_document_links host docket s m fetch) k = some v →
      lookupIdx (list_document_links host docket s e fetch) k = some v := by
  constructor
  · exact nodup_years host docket fetch _ [] List.nodup_nil
  · intro k v hv
    unfold list_document_links at hv ⊢
    rw [yearsRange_append h1 h2, List.foldl_append]
    exact lookup_preserved_years host docket fetch _ _ hv

/-- Witness for C1: with years 1 and 2 both listing document `42`, the
record retained over the range `[1, 2]` is year 1's (its URL and
filename), exactly as established by the prefix range `[1, 1]`. -/
theorem list_document_links_unique_first_wins_witness :
    lookupIdx (list_document_links hostW dockW 1 2 fetchW1) "42".data
      = some (hrefA, "A.pdf".data) :=
  (list_document_links_unique_first_wins hostW dockW 1 1 2 fetchW1
    (by decide) (by decide)).2 "42".data (hrefA, "A.pdf".data) (by decide)

/-- C2: Every filename stored by discover ends in `.pdf` under a
case-insensitive comparison; the filename derivation used for every
link maps empty trimmed text to exactly `{doc_id}.pdf` and otherwise
appends `.pdf` to the trimmed text unless it already ends in `.pdf`
case-insensitively. -/
theorem list_document_links_filename_law (host docket : Str) (s e : Nat)
    (fetch : Str → Option Page) :
    (∀ ent ∈ list_document_links host docket s e fetch,
        endsWithCI ent.2.2 pdfExt = true) ∧
    (∀ t id, trimL t = [] → deriveFilename t id = id ++ pdfExt) ∧
    (∀ t id, trimL t ≠ [] →
        deriveFilename t id
          = if endsWithCI (trimL t) pdfExt then trimL t else trimL t ++ pdfExt) := by
  refine ⟨?_, ?_, ?_⟩
  · intro ent hent
    obtain ⟨y, _, page, _, a, _, _, id, _, hent⟩ := mem_discover hent
    rw [hent]
    exact deriveFilename_ends_pdf a.text id
  · intro t id h
    unfold deriveFilename
    rw [if_pos (List.isEmpty_iff.mpr h)]
  · intro t id h
    unfold deriveFilename
    rw [if_neg (by simpa [List.isEmpty_iff] using h)]

/-- Witness for C2: the filename stored for document `42` ends in
`.pdf`; empty link text gives `{doc_id}.pdf`; non-empty text `B` has
`.pdf` appended. -/
theorem list_document_links_filename_law_witness :
    endsWithCI "A.pdf".data pdfExt = true ∧
    deriveFilename "  ".data "7".data = "7".data ++ pdfExt ∧
    deriveFilename " B ".data "7".data = "B.pdf".data :=
  ⟨(list_document_links_filename_law hostW dockW 1 2 fetchW1).1
      ("42".data, hrefA, "A.pdf".data) (by decide),
   (list_document_links_filename_law hostW dockW 1 2 fetchW1).2.1
      "  ".data "7".data (by decide),
   ((list_document_links_filename_law hostW dockW 1 2 fetchW1).2.2
      " B ".data "7".data (by decide)).trans (by decide)⟩

/-- C3 counterexample: with a one-entry index whose fetch fails, the
first run saves nothing, so the second run with the unchanged
destination re-issues one network request and classifies the entry
`Failed`, not `SkippedExisting` — the claim as stated (zero requests,
all `SkippedExisting`, unconditionally) is false. -/
theorem download_documents_second_run_refetches_failed :
    (download_documents idxC3
        (download_documents idxC3 [] fAllFail 0).2.1 fAllFail 0).2.2.1 = 1 ∧
    (download_documents idxC3
        (download_documents idxC3 [] fAllFail 0).2.1 fAllFail 0).1
      = [RetrievalOutcome.Failed "500".data] := by
  constructor
  · rfl
  · rfl

/-- C3 (amended): if the first run classified no entry as `Failed`,
rerunning `download_documents` with the same index and the unchanged
destination issues zero network requests, classifies every entry
`SkippedExisting`, and leaves the destination's files unchanged; and
unconditionally, a file already present before a run is never
overwritten. -/
theorem download_documents_idempotent_after_success (index : LinkIndex)
    (fs : FS) (fetchDoc : Str → Except Str Str) (pace : Nat)
    (h : ∀ o ∈ (download_documents index fs fetchDoc pace).1, isFailed o = false) :
    download_documents index
        (download_documents index fs fetchDoc pace).2.1 fetchDoc pace
      = (index.map (fun _ => RetrievalOutcome.SkippedExisting),
         (download_documents index fs fetchDoc pace).2.1, 0, 0) ∧
    ∀ name, fileExists fs name = true →
      lookupFS (download_documents index fs fetchDoc pace).2.1 name
        = lookupFS fs name := by
  constructor
  · exact download_all_existing fetchDoc pace index _
      (entries_exist_after fetchDoc pace index fs h)
  · intro name hname
    exact download_no_overwrite fetchDoc pace index fs hname

/-- Witness for C3 (amended): a successful first run saves `f.pdf`, and
the second run over the saved state performs zero requests and skips
the entry. -/
theorem download_documents_idempotent_after_success_witness :
    download_documents idxC3 (download_documents idxC3 [] fOkW 0).2.1 fOkW 0
      = ([RetrievalOutcome.SkippedExisting],
         [("f.pdf".data, "B".data)], 0, 0) :=
  ((download_documents_idempotent_after_success idxC3 [] fOkW 0
      (by decide)).1).trans (by decide)

/-- C4: an unreachable listing page for one year (network error or
4xx/5xx, modelled as `none`) never aborts discover: the run is
identical to one where that year serves an empty page, so the year
contributes zero documents, the loop continues, and every document
found in the other years is still returned. -/
theorem list_document_links_year_failure_nonfatal (host docket : Str)
    (s e y : Nat) (fetch : Str → Option Page)
    (h : fetch (listingUrl host y docket) = none) :
    list_document_links host docket s e fetch
      = list_document_links host docket s e
          (fun u => if u = listingUrl host y docket then some [] else fetch u) := by
  unfold list_document_links
  refine foldl_congr_mem ?_
  intro idx y₀ _
  unfold processYear
  by_cases hu : listingUrl host y₀ docket = listingUrl host y docket
  · rw [hu, h]
    simp
  · simp only [hu, if_false]

/-- Witness for C4: year 1's page is unreachable (`none`), yet discover
over `[1, 2]` behaves as if year 1 were empty and still returns the
single document listed in year 2. -/
theorem list_document_links_year_failure_nonfatal_witness :
    fetchW4 (listingUrl hostW 1 dockW) = none ∧
    list_document_links hostW dockW 1 2 fetchW4
      = list_document_links hostW dockW 1 2
          (fun u => if u = listingUrl hostW 1 dockW then some [] else fetchW4 u) ∧
    (list_document_links hostW dockW 1 2 fetchW4).length = 1 :=
  ⟨by decide,
   list_document_links_year_failure_nonfatal hostW dockW 1 2 1 fetchW4 (by decide),
   by decide⟩

/-- C5: retrieval never aborts the batch — every entry of the index
receives exactly one outcome, and on a per-document failure (request
exception or non-2xx status) the entry is classified `Failed(reason)`
while the remaining entries are processed exactly as if the batch had
started at them (same outcomes, same files, one extra request). -/
theorem download_documents_failure_isolation :
    (∀ (index : LinkIndex) (fs : FS) (fetchDoc : Str → Except Str Str) (pace : Nat),
        (download_documents index fs fetchDoc pace).1.length = index.length) ∧
    (∀ (k url fname : Str) (rest : LinkIndex) (fs : FS)
        (fetchDoc : Str → Except Str Str) (pace : Nat) (r : Str),
        fileExists fs fname = false → fetchDoc url = Except.error r →
        download_documents ((k, url, fname) :: rest) fs fetchDoc pace
          = (RetrievalOutcome.Failed r :: (download_documents rest fs fetchDoc pace).1,
             (download_documents rest fs fetchDoc pace).2.1,
             (download_documents rest fs fetchDoc pace).2.2.1 + 1,
             (download_documents rest fs fetchDoc pace).2.2.2)) ∧
    (∀ (k url fname : Str) (rest : LinkIndex) (fs : FS)
        (fetchDoc : Str → Except Str Str) (pace : Nat) (body : Str),
        fileExists fs fname = false → fetchDoc url = Except.ok body →
        download_documents ((k, url, fname) :: rest) fs fetchDoc pace
          = (RetrievalOutcome.Saved
               :: (download_documents rest ((fname, body) :: fs) fetchDoc pace).1,
             (download_documents rest ((fname, body) :: fs) fetchDoc pace).2.1,
             (download_documents rest ((fname, body) :: fs) fetchDoc pace).2.2.1 + 1,
             (download_documents rest ((fname, body) :: fs) fetchDoc pace).2.2.2 + pace)) := by
  refine ⟨fun index fs fetchDoc pace => download_length fetchDoc pace index fs, ?_, ?_⟩
  · intro k url fname rest fs fetchDoc pace r h1 h2
    simp only [download_documents]
    rw [if_neg (by simp [h1]), h2]
  · intro k url fname rest fs fetchDoc pace body h1 h2
    simp only [download_documents]
    rw [if_neg (by simp [h1]), h2]

/-- Witness for C5: in a two-entry batch whose first fetch fails, the
second entry is still attempted and saved. -/
theorem download_documents_failure_isolation_witness :
    fileExists ([] : FS) "a.pdf".data = false ∧
    fMix "u1".data = Except.error "404".data ∧
    download_documents idxW5 [] fMix 0
      = ([RetrievalOutcome.Failed "404".data, RetrievalOutcome.Saved],
         [("b.pdf".data, "B".data)], 2, 0) :=
  ⟨by decide, rfl,
   (download_documents_failure_isolation.2.1 "1".data "u1".data "a.pdf".data
      [("2".data, "u2".data, "b.pdf".data)] [] fMix 0 "404".data
      (by decide) rfl).trans (by decide)⟩

/-- C6: with the same stub site, extending the year range at the end
never shrinks the index: the size over `[s, e₁]` is at most the size
over `[s, e₂]` whenever `s ≤ e₁ ≤ e₂`. -/
theorem list_document_links_monotone_in_end_year (host docket : Str)
    (s e₁ e₂ : Nat) (fetch : Str → Option Page) (h1 : s ≤ e₁) (h2 : e₁ ≤ e₂) :
    (list_document_links host docket s e₁ fetch).length
      ≤ (list_document_links host docket s e₂ fetch).length := by
  unfold list_document_links
  rw [yearsRange_append h1 h2, List.foldl_append]
  exact length_le_years host docket fetch _ _

/-- Witness for C6: over the two-year stub site, the one-year index is
no larger than the two-year index. -/
theorem list_document_links_monotone_in_end_year_witness :
    (list_document_links hostW dockW 1 1 fetchW1).length
      ≤ (list_document_links hostW dockW 1 2 fetchW1).length :=
  list_document_links_monotone_in_end_year hostW dockW 1 1 2 fetchW1
    (by decide) (by decide)

/-- C7: discover consults the network only at the fixed template URLs
`host ++ "/server/docs/" ++ year ++ "/" ++ docket ++ "/docsets"` (two
fetch functions agreeing there produce identical indexes); anchors
lacking the `GetDocument` marker or a parseable `docID` are ignored;
and every extracted identifier is a non-empty digit string occurring
right after `docID=` in the link target. -/
theorem list_document_links_url_template (host docket : Str) (s e : Nat)
    (fetch fetch' : Str → Option Page) :
    ((∀ y ∈ yearsRange s e,
        fetch (listingUrl host y docket) = fetch' (listingUrl host y docket)) →
      list_document_links host docket s e fetch
        = list_document_links host docket s e fetch') ∧
    (∀ y, listingUrl host y docket
        = host ++ "/server/docs/".data ++ natToStr y ++ "/".data
            ++ docket ++ "/docsets".data) ∧
    (∀ base idx a, containsSub getDocumentMarker a.href = false →
        processAnchor base idx a = idx) ∧
    (∀ base idx a, extractDocId a.href = none → processAnchor base idx a = idx) ∧
    (∀ href d, extractDocId href = some d →
        d ≠ [] ∧ d.all Char.isDigit = true ∧ docIdKey ++ d <:+: href) := by
  refine ⟨?_, fun y => rfl, ?_, ?_, fun href d h => extractDocId_spec h⟩
  · intro h
    unfold list_document_links
    refine foldl_congr_mem ?_
    intro idx y hy
    unfold processYear
    rw [h y hy]
  · intro base idx a h
    unfold processAnchor
    rw [if_neg (by simp [h])]
  · intro base idx a h
    unfold processAnchor
    by_cases hc : containsSub getDocumentMarker a.href = true
    · rw [if_pos hc, h]
    · rw [if_neg hc]

/-- Witness for C7: two stub sites agreeing only on the template URL of
year 1 yield identical indexes over `[1, 1]`, and the identifier
extracted from the proxy link is the digit string `42` following
`docID=`. -/
theorem list_document_links_url_template_witness :
    (∀ y ∈ yearsRange 1 1,
        fetchW7 (listingUrl hostW y dockW) = fetchW7x (listingUrl hostW y dockW)) ∧
    list_document_links hostW dockW 1 1 fetchW7
      = list_document_links hostW dockW 1 1 fetchW7x ∧
    ("42".data ≠ [] ∧ ("42".data).all Char.isDigit = true ∧
      docIdKey ++ "42".data <:+: hrefB) :=
  ⟨by decide,
   (list_document_links_url_template hostW dockW 1 1 fetchW7 fetchW7x).1 (by decide),
   (list_document_links_url_template hostW dockW 1 1 fetchW7 fetchW7x).2.2.2.2
      hrefB "42".data (by decide)⟩

/-- C8: `fetch_docket` is the pure composition of discover and
retrieve — it builds the index with `list_document_links`, passes that
same index unchanged to `download_documents`, and returns it — and an
unspecified destination defaults to `./utc_<docket>`. -/
theorem fetch_docket_composition (host docket : Str) (s e : Nat)
    (dest : Option Str) (pace : Nat) (fetchPage : Str → Option Page)
    (fetchDoc : Str → Except Str Str) (gfs : Str → FS) :
    fetch_docket host docket s e dest pace fetchPage fetchDoc gfs
      = (list_document_links host docket s e fetchPage,
         dest.getD (defaultDest docket),
         download_documents (list_document_links host docket s e fetchPage)
           (gfs (dest.getD (defaultDest docket))) fetchDoc pace) ∧
    (fetch_docket host docket s e none pace fetchPage fetchDoc gfs).2.1
      = "./utc_".data ++ docket ∧
    (fetch_docket host docket s e dest pace fetchPage fetchDoc gfs).1
      = list_document_links host docket s e fetchPage :=
  ⟨rfl, rfl, rfl⟩

/-- C9 counterexample: a page may serve an absolute `GetDocument` link
on a foreign host; discover stores that resolved href verbatim, so the
stored `source_url` is not on the fixed endpoint
`https://apiproxy.utc.wa.gov/cases/GetDocument` — the claim's fixed
host is false for the spec-modelled code. -/
theorem list_document_links_source_url_host_counterexample :
    list_document_links hostW "9".data 1 1 fetchC9
      = [("7".data, hrefEvil, "x.pdf".data)] ∧
    isPrefixOfL "https://apiproxy.utc.wa.gov/".data hrefEvil = false := by
  constructor
  · decide
  · decide

/-- C9 (amended): every record of the index stems from an anchor of a
fetched listing page whose target carries the `GetDocument` marker;
its `source_url` is that target resolved against the listing-page URL
and contains `docID=` followed by the record's `doc_id` key; the proxy
host is whatever the page's links carry, not a constant fixed by
discover. -/
theorem list_document_links_source_url_provenance (host docket : Str)
    (s e : Nat) (fetch : Str → Option Page) :
    ∀ ent ∈ list_document_links host docket s e fetch,
      ∃ y ∈ yearsRange s e, ∃ page,
        fetch (listingUrl host y docket) = some page ∧
        ∃ a ∈ page, containsSub getDocumentMarker a.href = true ∧
          extractDocId a.href = some ent.1 ∧
          ent.2.1 = resolveUrl (listingUrl host y docket) a.href ∧
          docIdKey ++ ent.1 <:+: ent.2.1 := by
  intro ent hent
  obtain ⟨y, hy, page, hp, a, ha, hc, id, he, hent⟩ := mem_discover hent
  subst hent
  obtain ⟨_, _, hinf⟩ := extractDocId_spec he
  refine ⟨y, hy, page, hp, a, ha, hc, he, rfl, ?_⟩
  show docIdKey ++ id <:+: resolveUrl (listingUrl host y docket) a.href
  unfold resolveUrl
  by_cases habs : isAbsoluteUrl a.href = true
  · rw [if_pos habs]
    exact hinf
  · rw [if_neg habs]
    obtain ⟨u, v, huv⟩ := hinf
    exact ⟨baseDirOf (listingUrl host y docket) ++ u, v, by
      rw [← huv]; simp [List.append_assoc]⟩

/-- Witness for C9 (amended): the single record discovered from the
foreign-host stub satisfies the provenance property. -/
theorem list_document_links_source_url_provenance_witness :
    ∃ y ∈ yearsRange 1 1, ∃ page,
      fetchC9 (listingUrl hostW y "9".data) = some page ∧
      ∃ a ∈ page, containsSub getDocumentMarker a.href = true ∧
        extractDocId a.href = some "7".data ∧
        hrefEvil = resolveUrl (listingUrl hostW y "9".data) a.href ∧
        docIdKey ++ "7".data <:+: hrefEvil :=
  list_document_links_source_url_provenance hostW "9".data 1 1 fetchC9
    ("7".data, hrefEvil, "x.pdf".data) (by decide)

/-- C10: when the trimmed link text is non-empty and does not already
end in `.pdf` case-insensitively (for example `...xlsx` or text with
percent-encoded characters), the derived filename is that trimmed
text kept verbatim with `.pdf` appended: no extension replacement and
no URL-decoding happens. -/
theorem deriveFilename_keeps_text_verbatim (t id : Str)
    (h1 : trimL t ≠ []) (h2 : endsWithCI (trimL t) pdfExt = false) :
    deriveFilename t id = trimL t ++ pdfExt ∧
    endsWithCI (deriveFilename t id) pdfExt = true := by
  constructor
  · unfold deriveFilename
    rw [if_neg (by simpa [List.isEmpty_iff] using h1), if_neg (by simp [h2])]
  · exact deriveFilename_ends_pdf t id

/-- Witness for C10: the notebook's `...xlsx` and percent-encoded link
texts yield double-extension, still-percent-encoded filenames. -/
theorem deriveFilename_keeps_text_verbatim_witness :
    trimL xlsxText ≠ [] ∧ endsWithCI (trimL xlsxText) pdfExt = false ∧
    deriveFilename xlsxText "150".data
      = "2045 1000 MW Summary Results.xlsx.pdf".data ∧
    deriveFilename pctText "9".data
      = "Appendix J %28R%29-06-01-2023.pdf".data :=
  ⟨by decide, by decide,
   ((deriveFilename_keeps_text_verbatim xlsxText "150".data
      (by decide) (by decide)).1).trans (by decide),
   ((deriveFilename_keeps_text_verbatim pctText "9".data
      (by decide) (by decide)).1).trans (by decide)⟩
